import Mathlib

/-!
Shallow embedding of the SNU Brown Bag presentation portal
(`src/snu_brown_bag.py`) and verification of the specification's claims
about its booking, audit-log, aggregation, authentication, and listing
behaviour.

Tables are embedded as Lean lists of structures; SQLite AUTOINCREMENT ids
are modelled by explicit monotone counters; SQLite TEXT comparison (BINARY
collation on ASCII data) is modelled by Lean's lexicographic `String`
order; pandas numerics are modelled over `Rat`, with Python's
`round(x, 2)` embedded as exact round-half-to-even on rationals.
-/

/-- Row of the `departments` table (`init_db`). -/
structure Department where
  id : Nat
  name : String
  head_email : String
  coord_email : String
  password : String
deriving DecidableEq

/-- Row of the `presentations` table (`init_db`). -/
structure Presentation where
  id : Nat
  presenter : String
  designation : String
  guide_name : String
  title : String
  abstract : String
  date : String
  time : String
  duration : String
  venue_hall : String
  dept_id : Nat
deriving DecidableEq

/-- Row of the `subscriptions` table (`init_db`). -/
structure Subscription where
  id : Nat
  email : String
deriving DecidableEq

/-- Row of the `activity_logs` table (`init_db`). -/
structure LogEntry where
  id : Nat
  action : String
  title : String
  presenter : String
  dept_name : String
  done_by : String
  action_time : String
deriving DecidableEq

/-- The SQLite database file `ssn_research.db`: the four tables plus the
AUTOINCREMENT counters that assign the next primary key of each table. -/
structure DB where
  departments : List Department
  presentations : List Presentation
  subscriptions : List Subscription
  logs : List LogEntry
  nextDeptId : Nat
  nextPresId : Nat
  nextSubId : Nat
  nextLogId : Nat
deriving DecidableEq

/-- Worker for `firstDedup`: keeps the first occurrence of each element,
skipping those already seen. -/
def dedupGo {α : Type} [DecidableEq α] : List α → List α → List α
  | [], _ => []
  | a :: l, seen => if a ∈ seen then dedupGo l seen else a :: dedupGo l (a :: seen)

/-- Distinct values of a column in first-occurrence order (the underlying
value set of pandas `nunique` / `value_counts` / `groupby`). -/
def firstDedup {α : Type} [DecidableEq α] (l : List α) : List α :=
  dedupGo l []

/-- pandas `Series.nunique`: number of distinct values of a column. -/
def nunique {α : Type} [DecidableEq α] (l : List α) : Nat :=
  (firstDedup l).length

/-- Round-half-to-even to an integer, the rounding used by Python's
builtin `round` (exact, over rationals). -/
def roundHalfEven (q : Rat) : Int :=
  let f := q.floor
  let r := q - (f : Rat)
  if r < 1 / 2 then f
  else if 1 / 2 < r then f + 1
  else if f % 2 = 0 then f else f + 1

/-- Python's `round(x, 2)`: round half-to-even at the second decimal. -/
def round2 (q : Rat) : Rat :=
  (roundHalfEven (q * 100) : Rat) / 100

/-- Calendar year of an ISO `YYYY-MM-DD` date string
(`pd.to_datetime(df["date"]).dt.year` on dates stored via `str(p_date)`). -/
def yearOf (d : String) : Nat :=
  (d.toList.take 4).foldl (fun acc c => acc * 10 + (c.toNat - 48)) 0

/-- The fixed 15-minute slot grid of the add/edit forms:
`dt_time(h, m).strftime("%I:%M %p") for h in range(8, 20) for m in (0, 15, 30, 45)`.
`pad2`/`fmt12` embed the zero-padded 12-hour `strftime` format. -/
def pad2 (n : Nat) : String :=
  if n < 10 then "0" ++ toString n else toString n

/-- Format `strftime("%I:%M %p")` applied to a 24-hour (hour, minute) pair. -/
def fmt12 (h m : Nat) : String :=
  let h12 := if h % 12 = 0 then 12 else h % 12
  pad2 h12 ++ ":" ++ pad2 m ++ " " ++ (if h < 12 then "AM" else "PM")

/-- The `TIME_SLOTS` list of the source. -/
def TIME_SLOTS : List String :=
  ((List.range 12).map (fun i => i + 8)).flatMap
    (fun h => [0, 15, 30, 45].map (fun m => fmt12 h m))

/-- Minutes after midnight denoted by a 12-hour slot string such as
`"01:00 PM"`; this is the chronological reading of a slot label, used to
state (not implement) chronological ordering. -/
def slotMinutes (s : String) : Nat :=
  let cs := s.toList
  let h12 : Nat := (cs.take 2).foldl (fun acc c => acc * 10 + (c.toNat - 48)) 0
  let m : Nat := ((cs.drop 3).take 2).foldl (fun acc c => acc * 10 + (c.toNat - 48)) 0
  let h24 := if cs.drop 6 = ['P', 'M'] then (if h12 = 12 then 12 else h12 + 12)
             else (if h12 = 12 then 0 else h12)
  h24 * 60 + m

/-- Decide `String` order through the underlying character lists, so that
comparisons of concrete store values reduce inside the kernel (the
lexicographic order itself is unchanged). -/
instance (priority := 1100) decLtStrViaList : @DecidableRel String (fun a b => a < b) :=
  fun a b => decidable_of_iff (a.toList < b.toList) String.lt_iff_toList_lt.symm

/-- Companion `≤` instance to `decLtStrViaList`. -/
instance (priority := 1100) decLeStrViaList : @DecidableRel String (fun a b => a ≤ b) :=
  fun a b => decidable_of_iff (a.toList ≤ b.toList) String.le_iff_toList_le.symm

/-- The inner join `SELECT p.*, d.name as Dept FROM presentations p JOIN
departments d ON p.dept_id = d.id` used by every read path over
presentations (the global `df`, both public-schedule queries, the
coordinator manage listing and the mail-broadcast listing).  `id` is the
primary key of `departments`, so at most one department matches. -/
def joinDF (db : DB) : List (Presentation × String) :=
  db.presentations.filterMap
    (fun p => (db.departments.find? (fun d => d.id == p.dept_id)).map (fun d => (p, d.name)))

/-- Comparison `ORDER BY date ASC, time ASC` on joined rows: SQLite
compares the TEXT columns byte-lexicographically (BINARY collation), which
for the ASCII dates and slot strings stored here is `String` order. -/
def byDateTime (a b : Presentation × String) : Prop :=
  a.1.date < b.1.date ∨ (a.1.date = b.1.date ∧ a.1.time ≤ b.1.time)

/-- Comparison `ORDER BY date DESC, time DESC` on joined rows. -/
def byDateTimeDesc (a b : Presentation × String) : Prop :=
  b.1.date < a.1.date ∨ (a.1.date = b.1.date ∧ b.1.time ≤ a.1.time)

instance : DecidableRel byDateTime := fun a b => by
  unfold byDateTime; infer_instance

instance : DecidableRel byDateTimeDesc := fun a b => by
  unfold byDateTimeDesc; infer_instance

instance : IsTotal (Presentation × String) byDateTime where
  total a b := by
    unfold byDateTime
    rcases lt_trichotomy a.1.date b.1.date with h | h | h
    · exact Or.inl (Or.inl h)
    · rcases le_total a.1.time b.1.time with ht | ht
      · exact Or.inl (Or.inr ⟨h, ht⟩)
      · exact Or.inr (Or.inr ⟨h.symm, ht⟩)
    · exact Or.inr (Or.inl h)

instance : IsTrans (Presentation × String) byDateTime where
  trans a b c hab hbc := by
    unfold byDateTime at *
    rcases hab with h1 | ⟨h1, h1t⟩
    · rcases hbc with h2 | ⟨h2, _⟩
      · exact Or.inl (h1.trans h2)
      · exact Or.inl (h2 ▸ h1)
    · rcases hbc with h2 | ⟨h2, h2t⟩
      · exact Or.inl (h1 ▸ h2)
      · exact Or.inr ⟨h1.trans h2, h1t.trans h2t⟩

instance : IsTotal (Presentation × String) byDateTimeDesc where
  total a b := by
    unfold byDateTimeDesc
    rcases lt_trichotomy a.1.date b.1.date with h | h | h
    · exact Or.inr (Or.inl h)
    · rcases le_total a.1.time b.1.time with ht | ht
      · exact Or.inr (Or.inr ⟨h.symm, ht⟩)
      · exact Or.inl (Or.inr ⟨h, ht⟩)
    · exact Or.inl (Or.inl h)

instance : IsTrans (Presentation × String) byDateTimeDesc where
  trans a b c hab hbc := by
    unfold byDateTimeDesc at *
    rcases hab with h1 | ⟨h1, h1t⟩
    · rcases hbc with h2 | ⟨h2, _⟩
      · exact Or.inl (h2.trans h1)
      · exact Or.inl (h2 ▸ h1)
    · rcases hbc with h2 | ⟨h2, h2t⟩
      · exact Or.inl (h1 ▸ h2)
      · exact Or.inr ⟨h1.trans h2, h2t.trans h1t⟩

/-- Tab 1 upcoming listing (and the broadcast query's shape):
`WHERE date >= ? ORDER BY date ASC, time ASC` over the join. -/
def queryUpcoming (db : DB) (today : String) : List (Presentation × String) :=
  List.insertionSort byDateTime ((joinDF db).filter (fun r => today ≤ r.1.date))

/-- Tab 1 previous listing: `WHERE date < ? ORDER BY date DESC, time DESC`. -/
def queryPrevious (db : DB) (today : String) : List (Presentation × String) :=
  List.insertionSort byDateTimeDesc ((joinDF db).filter (fun r => r.1.date < today))

/-- Broadcast mail listing (`upcoming_mail`): the same join, filter and
ordering as the public upcoming query, with a column projection done when
the mail body is rendered. -/
def mailQuery (db : DB) (today : String) : List (Presentation × String) :=
  List.insertionSort byDateTime ((joinDF db).filter (fun r => today ≤ r.1.date))

/-- Coordinator manage listing: the join restricted to the logged-in
department (`WHERE d.name = ?`). -/
def manageQuery (db : DB) (deptName : String) : List (Presentation × String) :=
  (joinDF db).filter (fun r => r.2 = deptName)

/-- Query `SELECT ... FROM activity_logs ORDER BY id DESC` (the admin
Notifications view; the source projects the non-id columns for display,
which does not affect count or order). -/
def listActivity (db : DB) : List LogEntry :=
  List.insertionSort (fun a b => b.id ≤ a.id) db.logs

/-- Fields of the coordinator "Schedule New Presentation" form
(`add_pres_form`). -/
structure AddReq where
  presenter : String
  designation : String
  guide_name : String
  title : String
  abstract : String
  date : String
  time : String
  duration : String
  venue_hall : String
deriving DecidableEq

/-- The `add_pres_form` submit handler: reject when presenter name or
title is blank, look up the logged-in department's id, then `INSERT INTO
presentations` followed by an `ADDED` row in `activity_logs`; the `ADDED`
row records the session department both as `dept_name` and `done_by`.
No (date, time, venue) conflict check appears anywhere on this path. -/
def addOp (db : DB) (req : AddReq) (sessionDept actTime : String) : DB :=
  if req.presenter = "" ∨ req.title = "" then db
  else
    match db.departments.find? (fun d => d.name == sessionDept) with
    | none => db
    | some d =>
      { db with
        presentations := db.presentations ++
          [⟨db.nextPresId, req.presenter, req.designation, req.guide_name, req.title,
            req.abstract, req.date, req.time, req.duration, req.venue_hall, d.id⟩],
        logs := db.logs ++
          [⟨db.nextLogId, "ADDED", req.title, req.presenter, sessionDept, sessionDept, actTime⟩],
        nextPresId := db.nextPresId + 1,
        nextLogId := db.nextLogId + 1 }

/-- The "Delete Selected" handler: the selected row is taken from the
coordinator's joined `pres_df`; a `DELETED` row (with the row's title,
presenter and joined department name) is inserted into `activity_logs`,
then `DELETE FROM presentations WHERE id=?` runs. -/
def delOp (db : DB) (sessionDept : String) (selId : Nat) (actTime : String) : DB :=
  match (manageQuery db sessionDept).find? (fun r => r.1.id == selId) with
  | none => db
  | some r =>
    { db with
      logs := db.logs ++
        [⟨db.nextLogId, "DELETED", r.1.title, r.1.presenter, r.2, sessionDept, actTime⟩],
      presentations := db.presentations.filter (fun p => p.id ≠ selId),
      nextLogId := db.nextLogId + 1 }

/-- The `edit_form` submit handler: `UPDATE presentations SET title=?,
venue_hall=?, time=?, duration=? WHERE id=?`.  No activity log is written
and no conflict check runs. -/
def updateOp (db : DB) (editId : Nat) (newTitle newVenue newTime newDuration : String) : DB :=
  { db with
    presentations := db.presentations.map (fun p =>
      if p.id = editId then
        { p with title := newTitle, venue_hall := newVenue,
                 time := newTime, duration := newDuration }
      else p) }

/-- Admin "Register Department": `INSERT INTO departments`; the UNIQUE
constraint on `name` makes the insert fail (leaving the table unchanged)
when the name already exists. -/
def createDeptOp (db : DB) (name headEmail coordEmail password : String) : DB :=
  if db.departments.any (fun d => d.name == name) then db
  else
    { db with
      departments := db.departments ++ [⟨db.nextDeptId, name, headEmail, coordEmail, password⟩],
      nextDeptId := db.nextDeptId + 1 }

/-- Admin department edit: `UPDATE departments SET name=?, head_email=?,
coord_email=?, password=? WHERE id=?`. -/
def updateDeptOp (db : DB) (deptId : Nat) (name headEmail coordEmail password : String) : DB :=
  { db with
    departments := db.departments.map (fun d =>
      if d.id = deptId then ⟨d.id, name, headEmail, coordEmail, password⟩ else d) }

/-- Admin "Add Subscriber": `INSERT INTO subscriptions (email)`; the
UNIQUE constraint on `email` rejects duplicates. -/
def addSubOp (db : DB) (email : String) : DB :=
  if db.subscriptions.any (fun s => s.email == email) then db
  else
    { db with
      subscriptions := db.subscriptions ++ [⟨db.nextSubId, email⟩],
      nextSubId := db.nextSubId + 1 }

/-- Admin subscriber removal: `DELETE FROM subscriptions WHERE id=?`. -/
def removeSubOp (db : DB) (subId : Nat) : DB :=
  { db with subscriptions := db.subscriptions.filter (fun s => s.id ≠ subId) }

/-- The coordinator Login button: succeed iff the departments table is
nonempty and the typed password equals
`d_df[d_df["name"] == dept_choice]["password"].values[0]`, the stored
password of the first (by UNIQUE name: the only) row with the chosen
name; when no row matches, the lookup raises and login never succeeds. -/
def authenticate (depts : List Department) (deptChoice passIn : String) : Bool :=
  match depts.find? (fun d => d.name == deptChoice) with
  | some d => passIn == d.password
  | none => false

/-- A row of the analytics input frame, restricted to the columns the
aggregation functions consume: the joined department name (`Dept`) and the
stored ISO date. -/
structure ARow where
  dept : String
  date : String
deriving DecidableEq

/-- Sort comparison for `value_counts`: descending by count. -/
def byCountDesc (a b : String × Nat) : Prop := b.2 ≤ a.2

instance : DecidableRel byCountDesc := fun a b => by
  unfold byCountDesc; infer_instance

instance : IsTotal (String × Nat) byCountDesc where
  total a b := Nat.le_total b.2 a.2

instance : IsTrans (String × Nat) byCountDesc where
  trans _ _ _ hab hbc := Nat.le_trans hbc hab

/-- pandas `Series.value_counts()`: distinct values with their
multiplicities, sorted descending by count (ties kept in first-occurrence
order by the stable sort). -/
def valueCountsDesc (col : List String) : List (String × Nat) :=
  List.insertionSort byCountDesc ((firstDedup col).map (fun d => (d, col.count d)))

/-- pandas `Series.rank(ascending=False)` (default `method='average'`)
evaluated at value `v` of the column `cs`: the mean of the ordinal ranks
of all entries tied at `v`, i.e. `G + (t + 1) / 2` where `G` entries are
strictly greater and `t` entries equal `v`. -/
def pandasAvgRankDesc (cs : List Nat) (v : Nat) : Rat :=
  ((cs.filter (fun c => v < c)).length : Rat) +
    (((cs.filter (fun c => c = v)).length : Rat) + 1) / 2

/-- A row of the department ranking table (`dept_rank` in the analytics
tab, `dept_counts` in the PDF report). -/
structure RankRow where
  department : String
  presentations : Nat
  rank : Int
  score : Rat
deriving DecidableEq

/-- The analytics department-performance table: `value_counts`, then
`Rank = counts.rank(ascending=False).astype(int)` (the `.astype(int)`
truncates; ranks are positive so this is the floor), then
`Performance Score = round((count / counts.max()) * 100, 2)`. -/
def dept_rank (rows : List ARow) : List RankRow :=
  let vc := valueCountsDesc (rows.map (fun r => r.dept))
  let cs := vc.map (fun p => p.2)
  let m := cs.foldr Nat.max 0
  vc.map (fun p =>
    ⟨p.1, p.2, (pandasAvgRankDesc cs p.2).floor,
      round2 (((p.2 : Rat) / (m : Rat)) * 100)⟩)

/-- Modelled from the spec's words for claim C3: dense rank of the count
in descending order, namely one plus the number of distinct counts
strictly greater. -/
def denseRankDesc (cs : List Nat) (v : Nat) : Nat :=
  ((firstDedup cs).filter (fun c => v < c)).length + 1

/-- The department ranking as claim C3 words it: same grouping, counting
and descending sort, but with the dense rank of the count. -/
def deptRankingDenseSpec (rows : List ARow) : List RankRow :=
  let vc := valueCountsDesc (rows.map (fun r => r.dept))
  let cs := vc.map (fun p => p.2)
  let m := cs.foldr Nat.max 0
  vc.map (fun p =>
    ⟨p.1, p.2, (denseRankDesc cs p.2 : Int),
      round2 (((p.2 : Rat) / (m : Rat)) * 100)⟩)

/-- The department ranking as amended for claim C3: the rank is the
truncated average rank, i.e. the number of departments with strictly
greater count plus `(t + 1) / 2` (integer division) where `t` departments
share the count. -/
def deptRankingAmended (rows : List ARow) : List RankRow :=
  let vc := valueCountsDesc (rows.map (fun r => r.dept))
  let cs := vc.map (fun p => p.2)
  let m := cs.foldr Nat.max 0
  vc.map (fun p =>
    ⟨p.1, p.2,
      (((cs.filter (fun c => p.2 < c)).length + ((cs.filter (fun c => c = p.2)).length + 1) / 2 : Nat) : Int),
      round2 (((p.2 : Rat) / (m : Rat)) * 100)⟩)

/-- The analytics KPI `intensity_index`: the guarded computation
`round(total_presentations / total_departments, 2)`.  The guard is the
source's `st.stop()` on an empty filtered frame (`InsufficientData` in
the spec's taxonomy), under which the division never runs. -/
def intensity_index (rows : List ARow) : Option Rat :=
  if rows.isEmpty then none
  else some (round2 ((rows.length : Rat) / (nunique (rows.map (fun r => r.dept)) : Rat)))

/-- The `Year` column: `pd.to_datetime(df["date"]).dt.year` per row. -/
def yearsOf (rows : List ARow) : List Nat :=
  rows.map (fun r => yearOf r.date)

/-- The index of `filtered_df.groupby("Year")`: distinct years sorted
ascending (pandas groupby sorts its keys). -/
def sortedYears (rows : List ARow) : List Nat :=
  List.insertionSort (fun a b => a ≤ b) (firstDedup (yearsOf rows))

/-- Source `yearly_counts = filtered_df.groupby("Year").size()`: each distinct
year (ascending) with its row count. -/
def yearly_counts (rows : List ARow) : List (Nat × Nat) :=
  (sortedYears rows).map (fun y => (y, (yearsOf rows).count y))

/-- The analytics KPI `yoy_growth`: if more than one year group exists,
`round(yearly_counts.pct_change().iloc[-1] * 100, 2)` — the relative
change of the last year's count against the preceding year's — else 0. -/
def yoy_growth (rows : List ARow) : Rat :=
  let yc := yearly_counts rows
  if 1 < yc.length then
    match yc.reverse with
    | b :: a :: _ => round2 ((((b.2 : Rat) - (a.2 : Rat)) / (a.2 : Rat)) * 100)
    | _ => 0
  else 0

theorem mem_dedupGo {α : Type} [DecidableEq α] :
    ∀ (l seen : List α) (x : α), x ∈ dedupGo l seen ↔ x ∈ l ∧ x ∉ seen
  | [], _, x => by simp [dedupGo]
  | a :: l, seen, x => by
    by_cases h : a ∈ seen
    · rw [dedupGo, if_pos h, mem_dedupGo l seen x]
      constructor
      · rintro ⟨h1, h2⟩; exact ⟨List.mem_cons_of_mem a h1, h2⟩
      · rintro ⟨h1, h2⟩
        rcases List.mem_cons.mp h1 with rfl | h1
        · exact absurd h h2
        · exact ⟨h1, h2⟩
    · rw [dedupGo, if_neg h]
      simp only [List.mem_cons, mem_dedupGo l (a :: seen) x]
      constructor
      · rintro (rfl | ⟨h1, h2⟩)
        · exact ⟨Or.inl rfl, h⟩
        · exact ⟨Or.inr h1, fun hx => h2 (Or.inr hx)⟩
      · rintro ⟨rfl | h1, h2⟩
        · exact Or.inl rfl
        · by_cases hxa : x = a
          · exact Or.inl hxa
          · exact Or.inr ⟨h1, fun hx => hx.elim hxa h2⟩

theorem nodup_dedupGo {α : Type} [DecidableEq α] :
    ∀ (l seen : List α), (dedupGo l seen).Nodup
  | [], _ => List.nodup_nil
  | a :: l, seen => by
    by_cases h : a ∈ seen
    · rw [dedupGo, if_pos h]; exact nodup_dedupGo l seen
    · rw [dedupGo, if_neg h]
      refine List.Nodup.cons ?_ (nodup_dedupGo l (a :: seen))
      intro ha
      exact ((mem_dedupGo l (a :: seen) a).mp ha).2 (List.mem_cons_self a seen)

theorem mem_firstDedup {α : Type} [DecidableEq α] {l : List α} {x : α} :
    x ∈ firstDedup l ↔ x ∈ l := by
  rw [firstDedup, mem_dedupGo]
  simp

theorem nodup_firstDedup {α : Type} [DecidableEq α] (l : List α) :
    (firstDedup l).Nodup :=
  nodup_dedupGo l []

theorem firstDedup_eq_nil {α : Type} [DecidableEq α] {l : List α} :
    firstDedup l = [] ↔ l = [] := by
  cases l with
  | nil => simp [firstDedup, dedupGo]
  | cons a l =>
    simp only [firstDedup, dedupGo, List.not_mem_nil, if_neg]
    constructor
    · intro h; cases h
    · intro h; cases h

theorem orderedInsert_of_forall_not {α : Type} (r : α → α → Prop) [DecidableRel r] (a : α) :
    ∀ (l : List α), (∀ b ∈ l, ¬ r a b) → l.orderedInsert r a = l ++ [a]
  | [], _ => rfl
  | b :: l, h => by
    rw [List.orderedInsert, if_neg (h b (List.mem_cons_self b l))]
    rw [orderedInsert_of_forall_not r a l (fun x hx => h x (List.mem_cons_of_mem b hx))]
    rfl

/-- Sorting a list whose `id`s are strictly increasing by `id` descending
reverses it: the `ORDER BY id DESC` view is exactly reverse insertion
order. -/
theorem insertionSort_idDesc_eq_reverse :
    ∀ (l : List LogEntry), l.Pairwise (fun x y => x.id < y.id) →
      List.insertionSort (fun a b => b.id ≤ a.id) l = l.reverse
  | [], _ => rfl
  | a :: l, h => by
    rw [List.insertionSort,
      insertionSort_idDesc_eq_reverse l (List.Pairwise.sublist (List.sublist_cons_self a l) h)]
    rw [orderedInsert_of_forall_not _ a l.reverse ?_, List.reverse_cons]
    intro b hb
    have := (List.pairwise_cons.mp h).1 b (List.mem_reverse.mp hb)
    omega

/-- Invariant of the `activity_logs` table: AUTOINCREMENT assigns ids in
strictly increasing insertion order, all below the next id. -/
def GoodLogs (db : DB) : Prop :=
  db.logs.Pairwise (fun x y => x.id < y.id) ∧ ∀ e ∈ db.logs, e.id < db.nextLogId

theorem goodLogs_append {logs : List LogEntry} {n : Nat} (e : LogEntry)
    (he : e.id = n) (h1 : logs.Pairwise (fun x y => x.id < y.id))
    (h2 : ∀ x ∈ logs, x.id < n) :
    (logs ++ [e]).Pairwise (fun x y => x.id < y.id) ∧
      ∀ x ∈ logs ++ [e], x.id < n + 1 := by
  constructor
  · rw [List.pairwise_append]
    refine ⟨h1, List.pairwise_singleton _ _, ?_⟩
    intro x hx b hb
    rw [List.mem_singleton.mp hb, he]
    exact h2 x hx
  · intro x hx
    rcases List.mem_append.mp hx with hx | hx
    · exact Nat.lt_succ_of_lt (h2 x hx)
    · rw [List.mem_singleton.mp hx, he]; exact Nat.lt_succ_self n

theorem goodLogs_addOp {db : DB} (h : GoodLogs db) (req : AddReq) (s t : String) :
    GoodLogs (addOp db req s t) := by
  rw [addOp]
  split
  · exact h
  · split
    · exact h
    · exact goodLogs_append _ rfl h.1 h.2

theorem goodLogs_delOp {db : DB} (h : GoodLogs db) (s : String) (sid : Nat) (t : String) :
    GoodLogs (delOp db s sid t) := by
  rw [delOp]
  split
  · exact h
  · exact goodLogs_append _ rfl h.1 h.2

/-- Under the AUTOINCREMENT invariant, the audit view is the reverse of
the insertion sequence, whatever the `action_time` strings are. -/
theorem listActivity_eq_reverse {db : DB} (h : GoodLogs db) :
    listActivity db = db.logs.reverse :=
  insertionSort_idDesc_eq_reverse db.logs h.1

/-- A presentation mutation issued through the coordinator console: an
add-form submit or a Delete Selected click (the only two actions that
write `activity_logs`). -/
inductive Op where
  | add (req : AddReq) (sessionDept actTime : String)
  | del (sessionDept : String) (selId : Nat) (actTime : String)

/-- Run one coordinator action against the store. -/
def applyOp (db : DB) : Op → DB
  | .add req s t => addOp db req s t
  | .del s sid t => delOp db s sid t

/-- Run a sequence of coordinator actions, oldest first. -/
def applyOps (db : DB) (ops : List Op) : DB :=
  ops.foldl applyOp db

/-- An action is successful when its guards pass and it reaches the
`INSERT`/`DELETE` statements: for an add, presenter and title nonblank
and the session department exists; for a delete, the selected id is in
the coordinator's joined listing. -/
def opSucceeds (db : DB) : Op → Prop
  | .add req s _ => ¬(req.presenter = "" ∨ req.title = "") ∧
      (db.departments.find? (fun d => d.name == s)).isSome = true
  | .del s sid _ => ((manageQuery db s).find? (fun r => r.1.id == sid)).isSome = true

/-- Every action of the sequence succeeds in the state it runs in. -/
def allSucceed : DB → List Op → Prop
  | _, [] => True
  | db, op :: rest => opSucceeds db op ∧ allSucceed (applyOp db op) rest

/-- Whether an action is an add (N in claim C2). -/
def isAddOp : Op → Bool
  | .add _ _ _ => true
  | .del _ _ _ => false

/-- Whether an action is a delete (M in claim C2). -/
def isDelOp : Op → Bool
  | .add _ _ _ => false
  | .del _ _ _ => true

theorem goodLogs_applyOp {db : DB} (h : GoodLogs db) (op : Op) :
    GoodLogs (applyOp db op) := by
  cases op with
  | add req s t => exact goodLogs_addOp h req s t
  | del s sid t => exact goodLogs_delOp h s sid t

theorem logs_applyOp_succeeds {db : DB} {op : Op} (h : opSucceeds db op) :
    ∃ e, (applyOp db op).logs = db.logs ++ [e] := by
  cases op with
  | add req s t =>
    obtain ⟨h1, h2⟩ := h
    obtain ⟨d, hd⟩ := Option.isSome_iff_exists.mp h2
    refine ⟨⟨db.nextLogId, "ADDED", req.title, req.presenter, s, s, t⟩, ?_⟩
    simp [applyOp, addOp, hd, h1]
  | del s sid t =>
    obtain ⟨r, hr⟩ := Option.isSome_iff_exists.mp h
    refine ⟨⟨db.nextLogId, "DELETED", r.1.title, r.1.presenter, r.2, s, t⟩, ?_⟩
    simp [applyOp, delOp, hr]

theorem applyOps_logs_length :
    ∀ (ops : List Op) (db : DB), GoodLogs db → allSucceed db ops →
      GoodLogs (applyOps db ops) ∧
        (applyOps db ops).logs.length = db.logs.length + ops.length
  | [], db, hg, _ => ⟨hg, rfl⟩
  | op :: rest, db, hg, hs => by
    obtain ⟨h1, h2⟩ := hs
    obtain ⟨hg', hlen⟩ :=
      applyOps_logs_length rest (applyOp db op) (goodLogs_applyOp hg op) h2
    refine ⟨hg', ?_⟩
    obtain ⟨e, he⟩ := logs_applyOp_succeeds h1
    have : applyOps db (op :: rest) = applyOps (applyOp db op) rest := rfl
    rw [this, hlen, he, List.length_append]
    simp only [List.length_cons, List.length_nil]
    omega

theorem countP_add_del (ops : List Op) :
    ops.countP isAddOp + ops.countP isDelOp = ops.length := by
  induction ops with
  | nil => rfl
  | cons op rest ih =>
    cases op with
    | add req s t =>
      rw [List.countP_cons_of_pos _ _ (by rfl), List.countP_cons_of_neg _ _ (by simp [isDelOp])]
      simp only [List.length_cons]
      omega
    | del s sid t =>
      rw [List.countP_cons_of_neg _ _ (by simp [isAddOp]), List.countP_cons_of_pos _ _ (by rfl)]
      simp only [List.length_cons]
      omega

/-- Fixture department store used by the concrete claims below. -/
def dbCSE : DB :=
  ⟨[⟨1, "CSE", "head@snu", "coord@snu", "pw"⟩], [], [], [], 2, 1, 1, 1⟩

/-- First booking request: 2025-06-01, 08:00 AM, Hall A. -/
def reqA : AddReq :=
  ⟨"Alice", "Faculty", "Guide1", "Talk One", "Abs1", "2025-06-01", "08:00 AM", "30 mins", "Hall A"⟩

/-- Second booking request with the identical (date, time, venue) triple. -/
def reqB : AddReq :=
  ⟨"Bob", "Scholar", "Guide2", "Talk Two", "Abs2", "2025-06-01", "08:00 AM", "45 mins", "Hall A"⟩

/-- Claim C1: the spec requires the booking operation to return `Conflict`
and not insert when (date, time, venue) collides with an existing
presentation.  The add path of the code performs no such check: submitting
a second presentation with the identical (date, time, venue) triple
succeeds and leaves two colliding rows in the table. -/
theorem booking_conflict_check_missing :
    (addOp (addOp dbCSE reqA "CSE" "2025-05-01 10:00:00") reqB "CSE" "2025-05-01 10:05:00").presentations.map
        (fun p => (p.date, p.time, p.venue_hall)) =
      [("2025-06-01", "08:00 AM", "Hall A"), ("2025-06-01", "08:00 AM", "Hall A")] ∧
    (addOp (addOp dbCSE reqA "CSE" "2025-05-01 10:00:00") reqB "CSE" "2025-05-01 10:05:00").presentations.length = 2 := by
  decide

/-- Action sequence fixture for claim C2: one successful add, then one
successful delete of the inserted presentation. -/
def opsC2 : List Op :=
  [Op.add reqA "CSE" "2025-05-01 10:00:00", Op.del "CSE" 1 "2025-05-02 11:00:00"]

/-- Claim C2: starting from an empty activity log, after any sequence of
N successful adds and M successful deletes (and no other mutations) the
`listActivity` view has exactly N + M entries and equals the reverse of
the insertion sequence — newest first by monotonically assigned id,
independent of every `action_time` value carried by the operations. -/
theorem listActivity_count_and_insertion_order :
    ∀ (db0 : DB) (ops : List Op), db0.logs = [] → allSucceed db0 ops →
      (listActivity (applyOps db0 ops)).length =
          ops.countP isAddOp + ops.countP isDelOp ∧
        listActivity (applyOps db0 ops) = (applyOps db0 ops).logs.reverse := by
  intro db0 ops hlogs hs
  have hg : GoodLogs db0 := by
    constructor
    · rw [hlogs]; exact List.Pairwise.nil
    · rw [hlogs]; intro e he; cases he
  obtain ⟨hg', hlen⟩ := applyOps_logs_length ops db0 hg hs
  have hrev := listActivity_eq_reverse hg'
  refine ⟨?_, hrev⟩
  rw [hrev, List.length_reverse, hlen, hlogs, countP_add_del]
  simp

/-- Witness for claim C2 at the concrete two-action trace. -/
theorem listActivity_count_and_insertion_order_witness :
    dbCSE.logs = [] ∧ allSucceed dbCSE opsC2 ∧
      ((listActivity (applyOps dbCSE opsC2)).length =
          opsC2.countP isAddOp + opsC2.countP isDelOp ∧
        listActivity (applyOps dbCSE opsC2) = (applyOps dbCSE opsC2).logs.reverse) := by
  have hAll : allSucceed dbCSE opsC2 := by
    simp only [opsC2, allSucceed, opSucceeds, applyOp]
    exact ⟨⟨by decide, by decide⟩, by decide, trivial⟩
  exact ⟨rfl, hAll, listActivity_count_and_insertion_order dbCSE opsC2 rfl hAll⟩

theorem ratFloor_eq_intFloor (q : Rat) : q.floor = ⌊q⌋ := rfl

/-- Truncation `.astype(int)` of the pandas average rank equals the integer formula
`G + (t + 1) / 2` (Nat division): truncating `G + (t+1)/2` as a rational
floors the only possible fractional part, one half. -/
theorem floor_avg_rank (g t : Nat) :
    ((g : Rat) + ((t : Rat) + 1) / 2).floor = ((g + (t + 1) / 2 : Nat) : Int) := by
  rw [ratFloor_eq_intFloor]
  have h12 : ⌊(1 / 2 : Rat)⌋ = 0 := by
    rw [Int.floor_eq_iff]
    norm_num
  rcases Nat.even_or_odd t with ⟨u, hu⟩ | ⟨u, hu⟩
  · subst hu
    have hnat : (u + u + 1) / 2 = u := by omega
    rw [hnat]
    have hq : ((g : Rat) + (((u + u : Nat) : Rat) + 1) / 2) = ((g + u : Nat) : Rat) + 1 / 2 := by
      push_cast; ring
    rw [hq, Int.floor_nat_add, h12, add_zero]
  · subst hu
    have hnat : (2 * u + 1 + 1) / 2 = u + 1 := by omega
    rw [hnat]
    have hq : ((g : Rat) + (((2 * u + 1 : Nat) : Rat) + 1) / 2) = ((g + (u + 1) : Nat) : Rat) := by
      push_cast; ring
    rw [hq, Int.floor_natCast]

/-- Analytics rows fixture for claim C3: counts A=2, B=2, C=1. -/
def rowsC3 : List ARow :=
  [⟨"A", "2024-01-01"⟩, ⟨"A", "2024-01-02"⟩, ⟨"B", "2024-01-03"⟩,
   ⟨"B", "2024-01-04"⟩, ⟨"C", "2024-01-05"⟩]

/-- Claim C3 counterexample: with counts (2, 2, 1) the code assigns the
count-1 department rank 3 (pandas average rank 3, truncated), while the
dense rank the claim states would be 2. -/
theorem dept_rank_dense_rank_counterexample :
    dept_rank rowsC3 ≠ deptRankingDenseSpec rowsC3 ∧
      (dept_rank rowsC3).map (fun r => r.rank) = [1, 1, 3] ∧
      (deptRankingDenseSpec rowsC3).map (fun r => r.rank) = [1, 1, 2] := by
  have h1 : (dept_rank rowsC3).map (fun r => r.rank) = [1, 1, 3] := by
    simp only [dept_rank, pandasAvgRankDesc, floor_avg_rank]
    decide
  have h2 : (deptRankingDenseSpec rowsC3).map (fun r => r.rank) = [1, 1, 2] := by
    simp only [deptRankingDenseSpec]
    decide
  refine ⟨?_, h1, h2⟩
  intro h
  rw [h, h2] at h1
  exact absurd h1 (by decide)

/-- Claim C3 (amended): `dept_rank` groups by department, counts, sorts
descending by count, assigns the pandas average rank truncated to an
integer (strictly-greater count plus `(ties + 1) / 2`), and scores
`round(count / maxCount * 100, 2)`; the output is descending by count. -/
theorem dept_rank_truncated_average_rank :
    ∀ rows : List ARow, rows ≠ [] →
      dept_rank rows = deptRankingAmended rows ∧
        (dept_rank rows).Pairwise (fun a b => b.presentations ≤ a.presentations) := by
  intro rows _
  constructor
  · simp only [dept_rank, deptRankingAmended]
    apply List.map_congr_left
    intro p _
    simp only [pandasAvgRankDesc, floor_avg_rank]
  · simp only [dept_rank]
    rw [List.pairwise_map]
    have hs := List.sorted_insertionSort byCountDesc
      ((firstDedup (rows.map (fun r => r.dept))).map
        (fun d => (d, (rows.map (fun r => r.dept)).count d)))
    refine List.Pairwise.imp ?_ hs
    intro a b h
    exact h

/-- Witness for claim C3 at the concrete fixture. -/
theorem dept_rank_truncated_average_rank_witness :
    rowsC3 ≠ [] ∧
      (dept_rank rowsC3 = deptRankingAmended rowsC3 ∧
        (dept_rank rowsC3).Pairwise (fun a b => b.presentations ≤ a.presentations)) :=
  ⟨by decide, dept_rank_truncated_average_rank rowsC3 (by decide)⟩

/-- The chronological within-date comparison that claim C4 asserts: dates
ascending, and on equal dates earlier slot start times (in minutes after
midnight) first. -/
def chronRel (a b : Presentation × String) : Prop :=
  a.1.date < b.1.date ∨ (a.1.date = b.1.date ∧ slotMinutes a.1.time ≤ slotMinutes b.1.time)

instance : DecidableRel chronRel := fun a b => by
  unfold chronRel; infer_instance

/-- A listing is chronological when consecutive rows respect `chronRel`. -/
def chronological (l : List (Presentation × String)) : Prop :=
  l.Pairwise chronRel

instance (l : List (Presentation × String)) : Decidable (chronological l) := by
  unfold chronological; infer_instance

/-- Fixture presentation at the 08:00 AM slot. -/
def presAM : Presentation :=
  ⟨1, "Alice", "Faculty", "G1", "T1", "A1", "2025-06-01", "08:00 AM", "30 mins", "Hall A", 1⟩

/-- Fixture presentation on the same date at the 01:00 PM slot. -/
def presPM : Presentation :=
  ⟨2, "Bob", "Scholar", "G2", "T2", "A2", "2025-06-01", "01:00 PM", "30 mins", "Hall B", 1⟩

/-- Store holding the two same-date fixture presentations. -/
def dbC4 : DB :=
  ⟨[⟨1, "CSE", "h", "c", "pw"⟩], [presAM, presPM], [], [], 2, 3, 1, 1⟩

/-- Claim C4 counterexample: both times are valid slots, 08:00 AM is
chronologically earlier than 01:00 PM, yet the listing query returns the
01:00 PM presentation first, because `ORDER BY time ASC` compares the
stored 12-hour strings lexicographically; the output is therefore not
ordered chronologically within the date. -/
theorem queryUpcoming_not_chronological :
    queryUpcoming dbC4 "2025-01-01" = [(presPM, "CSE"), (presAM, "CSE")] ∧
      "08:00 AM" ∈ TIME_SLOTS ∧ "01:00 PM" ∈ TIME_SLOTS ∧
      slotMinutes "08:00 AM" < slotMinutes "01:00 PM" ∧
      ¬ chronological (queryUpcoming dbC4 "2025-01-01") := by
  decide

/-- Claim C4 (amended): `listPresentations` returns exactly the joined
rows passing the date filter, ordered by date ascending and then by the
stored 12-hour time string in lexicographic (byte) order — an order that
is not chronological within a date. -/
theorem queryUpcoming_sorted_lexicographic :
    ∀ (db : DB) (today : String),
      List.Sorted byDateTime (queryUpcoming db today) ∧
        (∀ r, r ∈ queryUpcoming db today ↔ r ∈ joinDF db ∧ today ≤ r.1.date) := by
  intro db today
  constructor
  · exact List.sorted_insertionSort byDateTime _
  · intro r
    rw [queryUpcoming, (List.perm_insertionSort byDateTime _).mem_iff, List.mem_filter]
    simp only [decide_eq_true_eq]

/-- Witness for claim C4's amended theorem at the fixture store. -/
theorem queryUpcoming_sorted_lexicographic_witness :
    List.Sorted byDateTime (queryUpcoming dbC4 "2025-01-01") ∧
      (∀ r, r ∈ queryUpcoming dbC4 "2025-01-01" ↔
        r ∈ joinDF dbC4 ∧ "2025-01-01" ≤ r.1.date) :=
  queryUpcoming_sorted_lexicographic dbC4 "2025-01-01"

/-- The spec's aggregation example rows: (DeptA, 2023), (DeptA, 2024),
(DeptB, 2024). -/
def rowsAgg : List ARow :=
  [⟨"DeptA", "2023-05-01"⟩, ⟨"DeptA", "2024-05-01"⟩, ⟨"DeptB", "2024-06-01"⟩]

/-- Claim C5: the research intensity index is
`round(totalPresentations / distinctDepartments, 2)`, and when the
distinct-department count is zero (equivalently, the input frame is
empty) the computation is guarded off — it fails with the no-data stop
instead of dividing by zero. -/
theorem intensity_index_guarded :
    ∀ rows : List ARow,
      (nunique (rows.map (fun r => r.dept)) = 0 → intensity_index rows = none) ∧
      (nunique (rows.map (fun r => r.dept)) ≠ 0 →
        intensity_index rows =
          some (round2 ((rows.length : Rat) /
            (nunique (rows.map (fun r => r.dept)) : Rat)))) := by
  intro rows
  constructor
  · intro h
    have hmap : rows.map (fun r => r.dept) = [] :=
      firstDedup_eq_nil.mp (List.length_eq_zero.mp h)
    have hrows : rows = [] := List.map_eq_nil_iff.mp hmap
    rw [hrows]
    rfl
  · intro h
    have hrows : rows ≠ [] := by
      intro hr
      rw [hr] at h
      exact h rfl
    have hne : ¬ (rows.isEmpty = true) := by
      cases rows with
      | nil => exact absurd rfl hrows
      | cons a l => simp
    rw [intensity_index, if_neg hne]

/-- Witness for claim C5 on the spec's example rows. -/
theorem intensity_index_guarded_witness :
    nunique (rowsAgg.map (fun r => r.dept)) ≠ 0 ∧
      intensity_index rowsAgg =
        some (round2 ((rowsAgg.length : Rat) /
          (nunique (rowsAgg.map (fun r => r.dept)) : Rat))) :=
  ⟨by decide, (intensity_index_guarded rowsAgg).2 (by decide)⟩

theorem sorted_desc_two_largest {zs : List Nat}
    (hz : zs.Pairwise (fun a b => b ≤ a)) (hnd : zs.Nodup) {y1 y2 : Nat}
    (h1 : y1 ∈ zs) (h2 : y2 ∈ zs) (hlt : y2 < y1)
    (hmax1 : ∀ y ∈ zs, y ≤ y1) (hmax2 : ∀ y ∈ zs, y = y1 ∨ y ≤ y2) :
    ∃ rest, zs = y1 :: y2 :: rest := by
  cases zs with
  | nil => cases h1
  | cons z1 ztail =>
    cases ztail with
    | nil =>
      have e1 : y1 = z1 := List.mem_singleton.mp h1
      have e2 : y2 = z1 := List.mem_singleton.mp h2
      omega
    | cons z2 rest =>
      have hz1 := List.pairwise_cons.mp hz
      have hz2 := List.pairwise_cons.mp hz1.2
      have hy1 : y1 = z1 := by
        have hle := hmax1 z1 (List.mem_cons_self _ _)
        rcases List.mem_cons.mp h1 with h | h1t
        · omega
        · have := hz1.1 y1 h1t
          omega
      have hz1nm := (List.nodup_cons.mp hnd).1
      have hz2ne : z2 ≠ z1 := by
        intro e
        exact hz1nm (e ▸ List.mem_cons_self _ _)
      have hz2le : z2 ≤ y2 := by
        rcases hmax2 z2 (List.mem_cons_of_mem _ (List.mem_cons_self _ _)) with h | h
        · exact absurd (h.trans hy1) hz2ne
        · exact h
      have hy2 : y2 = z2 := by
        rcases List.mem_cons.mp h2 with h | h2t
        · omega
        · rcases List.mem_cons.mp h2t with h | h2r
          · exact h
          · have := hz2.1 y2 h2r
            omega
      exact ⟨rest, by rw [hy1, hy2]⟩

/-- Claim C6: `yoy_growth` groups rows by calendar year; with fewer than
two distinct years it is 0, and otherwise it is the percentage change of
the final (largest) year's count against the prior (second largest)
year's count, rounded to two decimals. -/
theorem yoy_growth_last_two_years :
    ∀ (rows : List ARow) (y1 y2 : Nat),
      ((firstDedup (yearsOf rows)).length < 2 → yoy_growth rows = 0) ∧
      (y1 ∈ yearsOf rows → y2 ∈ yearsOf rows → y2 < y1 →
        (∀ y ∈ yearsOf rows, y ≤ y1) → (∀ y ∈ yearsOf rows, y = y1 ∨ y ≤ y2) →
        yoy_growth rows =
          round2 (((((yearsOf rows).count y1 : Rat) - ((yearsOf rows).count y2 : Rat)) /
            ((yearsOf rows).count y2 : Rat)) * 100)) := by
  intro rows y1 y2
  have hperm := List.perm_insertionSort (fun a b : Nat => a ≤ b) (firstDedup (yearsOf rows))
  constructor
  · intro hlen
    rw [yoy_growth]
    have hyclen : (yearly_counts rows).length < 2 := by
      rw [yearly_counts, List.length_map, sortedYears, hperm.length_eq]
      exact hlen
    rw [if_neg (by omega)]
  · intro hm1 hm2 hlt hmax1 hmax2
    have hmem : ∀ y : Nat, y ∈ sortedYears rows ↔ y ∈ yearsOf rows := by
      intro y
      rw [sortedYears, hperm.mem_iff, mem_firstDedup]
    have hsorted : (sortedYears rows).Pairwise (fun a b => a ≤ b) :=
      List.sorted_insertionSort _ _
    have hnd : (sortedYears rows).Nodup := hperm.nodup_iff.mpr (nodup_firstDedup _)
    have hzs : ((sortedYears rows).reverse).Pairwise (fun a b => b ≤ a) :=
      List.pairwise_reverse.mpr hsorted
    have hndr : ((sortedYears rows).reverse).Nodup := List.nodup_reverse.mpr hnd
    obtain ⟨rest, hrev⟩ := sorted_desc_two_largest hzs hndr
      (List.mem_reverse.mpr ((hmem y1).mpr hm1))
      (List.mem_reverse.mpr ((hmem y2).mpr hm2)) hlt
      (fun y hy => hmax1 y ((hmem y).mp (List.mem_reverse.mp hy)))
      (fun y hy => hmax2 y ((hmem y).mp (List.mem_reverse.mp hy)))
    have hyc : (yearly_counts rows).reverse =
        (y1, (yearsOf rows).count y1) :: (y2, (yearsOf rows).count y2) ::
          rest.map (fun y => (y, (yearsOf rows).count y)) := by
      rw [yearly_counts, ← List.map_reverse, hrev]
      rfl
    have hlen2 : 1 < (yearly_counts rows).length := by
      have hh : (yearly_counts rows).reverse.length = rest.length + 2 := by
        rw [hyc]
        simp
      rw [List.length_reverse] at hh
      omega
    rw [yoy_growth]
    rw [if_pos hlen2, hyc]

/-- Witness for claim C6 on the spec's example rows: final year 2024,
prior year 2023. -/
theorem yoy_growth_last_two_years_witness :
    yoy_growth rowsAgg =
      round2 (((((yearsOf rowsAgg).count 2024 : Rat) - ((yearsOf rowsAgg).count 2023 : Rat)) /
        ((yearsOf rowsAgg).count 2023 : Rat)) * 100) :=
  (yoy_growth_last_two_years rowsAgg 2024 2023).2
    (by decide) (by decide) (by decide) (by decide) (by decide)

theorem mem_joinDF {db : DB} {r : Presentation × String} (h : r ∈ joinDF db) :
    r.1 ∈ db.presentations ∧
      ∃ d ∈ db.departments, (d.id == r.1.dept_id) = true ∧ r.2 = d.name := by
  rw [joinDF, List.mem_filterMap] at h
  obtain ⟨p, hp, hf⟩ := h
  obtain ⟨d, hd, he⟩ := Option.map_eq_some'.mp hf
  have h0 := List.find?_some hd
  have h1 : (d.id == p.dept_id) = true := h0
  have h2 : d ∈ db.departments := List.mem_of_find?_eq_some hd
  cases he
  exact ⟨hp, d, h2, h1, rfl⟩

/-- Claim C7: the coordinator edit rewrites only title, venue, time and
duration of the targeted row; its identifying and descriptive fields are
untouched, untargeted rows are returned verbatim, and the other tables
are untouched. -/
theorem updateOp_frame :
    ∀ (db : DB) (eid : Nat) (nt nv ntm nd : String),
      List.Forall₂ (fun p q =>
          q.id = p.id ∧ q.presenter = p.presenter ∧ q.designation = p.designation ∧
          q.guide_name = p.guide_name ∧ q.abstract = p.abstract ∧ q.date = p.date ∧
          q.dept_id = p.dept_id ∧ (p.id ≠ eid → q = p))
        db.presentations (updateOp db eid nt nv ntm nd).presentations ∧
      (updateOp db eid nt nv ntm nd).departments = db.departments ∧
      (updateOp db eid nt nv ntm nd).subscriptions = db.subscriptions ∧
      (updateOp db eid nt nv ntm nd).logs = db.logs := by
  intro db eid nt nv ntm nd
  refine ⟨?_, rfl, rfl, rfl⟩
  show List.Forall₂ _ db.presentations (db.presentations.map _)
  rw [List.forall₂_map_right_iff]
  rw [List.forall₂_same]
  intro p _
  by_cases hpe : p.id = eid
  · rw [if_pos hpe]
    exact ⟨rfl, rfl, rfl, rfl, rfl, rfl, rfl, fun hne => absurd hpe hne⟩
  · rw [if_neg hpe]
    exact ⟨rfl, rfl, rfl, rfl, rfl, rfl, rfl, fun _ => rfl⟩

/-- Witness for claim C7 at the fixture store. -/
theorem updateOp_frame_witness :
    List.Forall₂ (fun p q =>
        q.id = p.id ∧ q.presenter = p.presenter ∧ q.designation = p.designation ∧
        q.guide_name = p.guide_name ∧ q.abstract = p.abstract ∧ q.date = p.date ∧
        q.dept_id = p.dept_id ∧ (p.id ≠ 1 → q = p))
      dbC4.presentations (updateOp dbC4 1 "New Title" "New Hall" "08:15 AM" "1 hour").presentations ∧
      (updateOp dbC4 1 "New Title" "New Hall" "08:15 AM" "1 hour").departments = dbC4.departments ∧
      (updateOp dbC4 1 "New Title" "New Hall" "08:15 AM" "1 hour").subscriptions = dbC4.subscriptions ∧
      (updateOp dbC4 1 "New Title" "New Hall" "08:15 AM" "1 hour").logs = dbC4.logs :=
  updateOp_frame dbC4 1 "New Title" "New Hall" "08:15 AM" "1 hour"

theorem eq_of_pairwise_names {l : List Department}
    (h : l.Pairwise (fun a b => a.name ≠ b.name)) {x y : Department}
    (hx : x ∈ l) (hy : y ∈ l) (hn : x.name = y.name) : x = y := by
  induction l with
  | nil => cases hx
  | cons a t ih =>
    have hp := List.pairwise_cons.mp h
    rcases List.mem_cons.mp hx with rfl | hxt
    · rcases List.mem_cons.mp hy with rfl | hyt
      · rfl
      · exact absurd hn (hp.1 y hyt)
    · rcases List.mem_cons.mp hy with rfl | hyt
      · exact absurd hn.symm (hp.1 x hxt)
      · exact ih hp.2 hxt hyt

/-- Claim C9: under the UNIQUE-name invariant of the departments table,
the Login check succeeds exactly when the typed password equals,
byte-for-byte, the stored password of the department with the chosen
name; a name with no stored department never authenticates. -/
theorem authenticate_iff_stored_password :
    ∀ (depts : List Department) (deptChoice passIn : String),
      depts.Pairwise (fun a b => a.name ≠ b.name) →
      (authenticate depts deptChoice passIn = true ↔
        ∃ d ∈ depts, d.name = deptChoice ∧ d.password = passIn) := by
  intro depts dc pw hnd
  rcases hf : depts.find? (fun d => d.name == dc) with _ | d0
  · simp only [authenticate, hf]
    constructor
    · intro h
      cases h
    · rintro ⟨d, hd, hname, _⟩
      have hne := List.find?_eq_none.mp hf d hd
      rw [hname] at hne
      exact absurd (beq_self_eq_true dc) hne
  · simp only [authenticate, hf]
    have hd0m := List.mem_of_find?_eq_some hf
    have hb0 := List.find?_some hf
    have hb : (d0.name == dc) = true := hb0
    have hd0n : d0.name = dc := eq_of_beq hb
    constructor
    · intro h
      exact ⟨d0, hd0m, hd0n, (eq_of_beq h).symm⟩
    · rintro ⟨d, hd, hname, hpw⟩
      have hde : d = d0 := eq_of_pairwise_names hnd hd hd0m (by rw [hname, hd0n])
      rw [← hde, hpw]
      exact beq_self_eq_true pw

/-- Witness for claim C9 at the fixture department table. -/
theorem authenticate_iff_stored_password_witness :
    dbCSE.departments.Pairwise (fun a b => a.name ≠ b.name) ∧
      (authenticate dbCSE.departments "CSE" "pw" = true ↔
        ∃ d ∈ dbCSE.departments, d.name = "CSE" ∧ d.password = "pw") :=
  ⟨by decide, authenticate_iff_stored_password dbCSE.departments "CSE" "pw" (by decide)⟩

/-- Claim C8: a delete that finds its target leaves no row with the
selected id in any joined listing; every mutating operation of the app
either leaves `activity_logs` untouched or appends a single row at the
end (prior entries byte-for-byte intact, never edited or deleted); and
under the AUTOINCREMENT invariant a successful delete's audit view is the
old view with one new entry in front. -/
theorem delete_hides_record_and_logs_append_only :
    ∀ (db : DB) (sd : String) (selId : Nat) (t today : String) (req : AddReq)
      (s t2 : String) (eid : Nat) (nt nv ntm nd : String)
      (dn dh dc dp : String) (did : Nat) (em : String) (sid2 : Nat),
      (((manageQuery db sd).find? (fun r => r.1.id == selId)).isSome = true →
        (∀ r ∈ joinDF (delOp db sd selId t), r.1.id ≠ selId) ∧
        (∀ r ∈ queryUpcoming (delOp db sd selId t) today, r.1.id ≠ selId)) ∧
      ((delOp db sd selId t).logs = db.logs ∨
        ∃ e, (delOp db sd selId t).logs = db.logs ++ [e]) ∧
      ((addOp db req s t2).logs = db.logs ∨
        ∃ e, (addOp db req s t2).logs = db.logs ++ [e]) ∧
      (updateOp db eid nt nv ntm nd).logs = db.logs ∧
      (createDeptOp db dn dh dc dp).logs = db.logs ∧
      (updateDeptOp db did dn dh dc dp).logs = db.logs ∧
      (addSubOp db em).logs = db.logs ∧
      (removeSubOp db sid2).logs = db.logs ∧
      (GoodLogs db →
        ((manageQuery db sd).find? (fun r => r.1.id == selId)).isSome = true →
        ∃ e, listActivity (delOp db sd selId t) = e :: listActivity db) := by
  intro db sd selId t today req s t2 eid nt nv ntm nd dn dh dc dp did em sid2
  have hide : ((manageQuery db sd).find? (fun r => r.1.id == selId)).isSome = true →
      ∀ r ∈ joinDF (delOp db sd selId t), r.1.id ≠ selId := by
    intro hs r hr
    obtain ⟨r0, hr0⟩ := Option.isSome_iff_exists.mp hs
    have hpres : (delOp db sd selId t).presentations =
        db.presentations.filter (fun p => p.id ≠ selId) := by
      rw [delOp, hr0]
    have h1 := (mem_joinDF hr).1
    rw [hpres] at h1
    have h2 := (List.mem_filter.mp h1).2
    exact of_decide_eq_true h2
  refine ⟨fun hs => ⟨hide hs, ?_⟩, ?_, ?_, rfl, ?_, rfl, ?_, rfl, ?_⟩
  · intro r hr
    rw [queryUpcoming, (List.perm_insertionSort byDateTime _).mem_iff] at hr
    exact hide hs r (List.mem_filter.mp hr).1
  · rcases hfd : (manageQuery db sd).find? (fun r => r.1.id == selId) with _ | r0
    · left
      rw [delOp, hfd]
    · right
      exact ⟨⟨db.nextLogId, "DELETED", r0.1.title, r0.1.presenter, r0.2, sd, t⟩,
        by rw [delOp, hfd]⟩
  · by_cases hg : req.presenter = "" ∨ req.title = ""
    · left
      rw [addOp, if_pos hg]
    · rcases hfa : db.departments.find? (fun d => d.name == s) with _ | d
      · left
        rw [addOp, if_neg hg, hfa]
      · right
        exact ⟨⟨db.nextLogId, "ADDED", req.title, req.presenter, s, s, t2⟩,
          by rw [addOp, if_neg hg, hfa]⟩
  · rw [createDeptOp]
    split <;> rfl
  · rw [addSubOp]
    split <;> rfl
  · intro hgood hs
    obtain ⟨r0, hr0⟩ := Option.isSome_iff_exists.mp hs
    refine ⟨⟨db.nextLogId, "DELETED", r0.1.title, r0.1.presenter, r0.2, sd, t⟩, ?_⟩
    rw [listActivity_eq_reverse (goodLogs_delOp hgood sd selId t),
      listActivity_eq_reverse hgood, delOp, hr0]
    simp

/-- Witness for claim C8 at the fixture store: delete presentation 1. -/
theorem delete_hides_record_and_logs_append_only_witness :
    (∀ r ∈ joinDF (delOp dbC4 "CSE" 1 "2025-05-02 09:00:00"), r.1.id ≠ 1) ∧
      (∃ e, listActivity (delOp dbC4 "CSE" 1 "2025-05-02 09:00:00") =
        e :: listActivity dbC4) := by
  have h := delete_hides_record_and_logs_append_only dbC4 "CSE" 1 "2025-05-02 09:00:00"
    "2025-01-01" reqA "CSE" "t" 1 "nt" "nv" "08:15 AM" "1 hour" "D" "h" "c" "p" 1 "e@x" 1
  have hgood : GoodLogs dbC4 := ⟨by decide, by decide⟩
  exact ⟨(h.1 (by decide)).1, h.2.2.2.2.2.2.2.2 hgood (by decide)⟩

/-- Store with an orphaned presentation: `dept_id` 99 matches no
department. -/
def presOrphan : Presentation :=
  ⟨5, "Eve", "Student", "G5", "T5", "A5", "2025-07-01", "09:00 AM", "30 mins", "Hall C", 99⟩

/-- Fixture store for claim C10. -/
def dbOrphan : DB :=
  ⟨[⟨1, "CSE", "h", "c", "pw"⟩], [presOrphan], [], [], 2, 6, 1, 1⟩

/-- Claim C10: every read path inner-joins presentations with departments
on `dept_id`, so a presentation whose `dept_id` matches no department
never appears in the analytics frame, the public upcoming or previous
listings, the mail-broadcast listing, or the coordinator manage listing —
it is silently invisible, not an error. -/
theorem orphan_presentations_invisible :
    ∀ (db : DB) (p : Presentation) (today deptName : String),
      p ∈ db.presentations → (∀ d ∈ db.departments, d.id ≠ p.dept_id) →
      (∀ r ∈ joinDF db, r.1 ≠ p) ∧ (∀ r ∈ queryUpcoming db today, r.1 ≠ p) ∧
      (∀ r ∈ queryPrevious db today, r.1 ≠ p) ∧ (∀ r ∈ mailQuery db today, r.1 ≠ p) ∧
      (∀ r ∈ manageQuery db deptName, r.1 ≠ p) := by
  intro db p today dn _ horph
  have hjoin : ∀ r ∈ joinDF db, r.1 ≠ p := by
    intro r hr hrp
    obtain ⟨_, d, hd, hbeq, _⟩ := mem_joinDF hr
    have hde : d.id = r.1.dept_id := eq_of_beq hbeq
    exact horph d hd (hde.trans (by rw [hrp]))
  refine ⟨hjoin, ?_, ?_, ?_, ?_⟩
  · intro r hr
    rw [queryUpcoming, (List.perm_insertionSort byDateTime _).mem_iff] at hr
    exact hjoin r (List.mem_filter.mp hr).1
  · intro r hr
    rw [queryPrevious, (List.perm_insertionSort byDateTimeDesc _).mem_iff] at hr
    exact hjoin r (List.mem_filter.mp hr).1
  · intro r hr
    rw [mailQuery, (List.perm_insertionSort byDateTime _).mem_iff] at hr
    exact hjoin r (List.mem_filter.mp hr).1
  · intro r hr
    exact hjoin r (List.mem_filter.mp hr).1

/-- Witness for claim C10 at the orphan fixture. -/
theorem orphan_presentations_invisible_witness :
    (∀ r ∈ joinDF dbOrphan, r.1 ≠ presOrphan) ∧
      (∀ r ∈ queryUpcoming dbOrphan "2025-01-01", r.1 ≠ presOrphan) ∧
      (∀ r ∈ queryPrevious dbOrphan "2025-01-01", r.1 ≠ presOrphan) ∧
      (∀ r ∈ mailQuery dbOrphan "2025-01-01", r.1 ≠ presOrphan) ∧
      (∀ r ∈ manageQuery dbOrphan "CSE", r.1 ≠ presOrphan) :=
  orphan_presentations_invisible dbOrphan presOrphan "2025-01-01" "CSE"
    (by decide) (by decide)
